import Mathlib

/-!
Verification of the TOF_aim firmware (final revision, rev 1.4).  The file
gives a shallow embedding of the frame-processing, focus-selection and
eye-actuation logic: processMeasuredData, the calibration capture of
setup, scoreZone, avgdistZone, validate, the interior scan of loop, and
the eye-pointing branch of loop.  Grids are total functions from signed
cell indices to signed values, matching the C arrays read at computed
offsets; machine integers are modelled as Nat and Int with explicit
wrapping where a cast occurs.
-/

/-- Noise range from the source: anything within plus or minus 50 mm of the
calibration value is treated as noise. -/
def NOISE_RANGE : ℤ := 50

/-- Maximum calibration and range value in mm; anything greater is set to
2000. -/
def MAX_CALIBRATION : ℤ := 2000

/-- C cast to int16_t, applied by the source when a valid distance is
stored into adjustedData. -/
def toInt16 (n : ℕ) : ℤ :=
  if n % 65536 < 32768 then (n % 65536 : ℤ) else (n % 65536 : ℤ) - 65536

/-- Per-cell body of processMeasuredData: classify one raw reading against
the calibration, yielding -1 for a bad status, -2 for out-of-range data,
-3 for background, or the measured distance. -/
def adjustCell (statusCode measuredData : ℕ) (calib : ℤ) : ℤ :=
  if statusCode ≠ 5 ∧ statusCode ≠ 9 ∧ statusCode ≠ 6 then
    -1
  else if measuredData = 0 ∨ (measuredData : ℤ) > MAX_CALIBRATION then
    -2
  else if (if (measuredData : ℤ) - calib < 0 then -((measuredData : ℤ) - calib)
           else (measuredData : ℤ) - calib) ≤ NOISE_RANGE then
    -3
  else
    toInt16 measuredData

/-- processMeasuredData over a whole frame: the adjusted grid is the
per-cell classification of the status, distance and calibration at each
index. -/
def processMeasuredData (status dist : ℤ → ℕ) (calib : ℤ → ℤ) : ℤ → ℤ :=
  fun i => adjustCell (status i) (dist i) (calib i)

/-- Calibration capture for one cell in setup: store the first reading,
clamping a zero or over-range reading to MAX_CALIBRATION.  The source
writes the calibration array only here; everywhere else it is read, which
the embedding reflects by passing the calibration as an immutable
function. -/
def calibrateCell (raw : ℕ) : ℤ :=
  if raw = 0 ∨ (raw : ℤ) > MAX_CALIBRATION then MAX_CALIBRATION else (raw : ℤ)

/-- Accepted confidence statuses of the final revision. -/
def StatusOK (s : ℕ) : Prop := s = 5 ∨ s = 9 ∨ s = 6

/-- Class INVALID_STATUS of an adjusted cell. -/
def IsInvalidStatus (s : ℕ) : Prop := ¬ StatusOK s

/-- Class OUT_OF_RANGE of an adjusted cell. -/
def IsOutOfRange (s d : ℕ) : Prop :=
  StatusOK s ∧ (d = 0 ∨ (d : ℤ) > MAX_CALIBRATION)

/-- Class BACKGROUND of an adjusted cell. -/
def IsBackground (s d : ℕ) (c : ℤ) : Prop :=
  StatusOK s ∧ ¬ (d = 0 ∨ (d : ℤ) > MAX_CALIBRATION) ∧ |(d : ℤ) - c| ≤ NOISE_RANGE

/-- Class of a valid (foreground) adjusted cell. -/
def IsValidDistance (s d : ℕ) (c : ℤ) : Prop :=
  StatusOK s ∧ ¬ (d = 0 ∨ (d : ℤ) > MAX_CALIBRATION) ∧ NOISE_RANGE < |(d : ℤ) - c|

/-- Offsets of the 3 by 3 neighborhood loops in scoreZone and avgdistZone. -/
def offsets : List ℤ := [-1, 0, 1]

/-- Cell indices visited by the 3 by 3 neighborhood loops, in the scan
order of the source.  Indices are signed: on under-excluded edge cells the
scan can leave the grid, so grids are total functions on the integers. -/
def nbhd (w : ℕ) (locX locY : ℕ) : List ℤ :=
  offsets.flatMap (fun yIndex => offsets.map (fun xIndex =>
    ((locY : ℤ) + yIndex) * (w : ℤ) + ((locX : ℤ) + xIndex)))

/-- Edge guard shared by scoreZone and avgdistZone.  The source compares
locX and locY against imageWidth itself, not against imageWidth - 1. -/
def edgeGuard (w locX locY : ℕ) : Bool :=
  locX == 0 || locX == w || locY == 0 || locY == w

/-- Body of scoreZone after the guard: count the neighborhood cells whose
value is positive. -/
def score9 (w : ℕ) (d : ℤ → ℤ) (locX locY : ℕ) : ℕ :=
  (nbhd w locX locY).foldl (fun score loc => if 0 < d loc then score + 1 else score) 0

/-- scoreZone from the source: 0 on guarded edge cells, otherwise the
count of valid values in the 3 by 3 neighborhood. -/
def scoreZone (w : ℕ) (d : ℤ → ℤ) (location : ℕ) : ℕ :=
  if edgeGuard w (location % w) (location / w) then 0
  else score9 w d (location % w) (location / w)

/-- Minimum neighborhood score for a zone to be good enough for focus. -/
def VALID_SCORE_MINIMUM : ℕ := 6

/-- validate from the source. -/
def validate (score : ℕ) : Bool := decide (VALID_SCORE_MINIMUM ≤ score)

/-- Accumulation loop of avgdistZone: total distance and count of the
neighborhood cells whose value is positive. -/
def zoneScan (w : ℕ) (d : ℤ → ℤ) (locX locY : ℕ) : ℤ × ℤ :=
  (nbhd w locX locY).foldl
    (fun acc loc => if 0 < d loc then (acc.1 + d loc, acc.2 + 1) else acc) (0, 0)

/-- avgdistZone from the source: the cell value itself on guarded edge
cells and on cells whose own value is not positive, otherwise the total
distance of the valid neighborhood cells divided by their count. -/
def avgdistZone (w : ℕ) (d : ℤ → ℤ) (location : ℕ) : ℤ :=
  if edgeGuard w (location % w) (location / w) then d (location : ℤ)
  else if 0 < d (location : ℤ) then
    (zoneScan w d (location % w) (location / w)).1 /
      (zoneScan w d (location % w) (location / w)).2
  else d (location : ℤ)

/-- Findings of the interior scan in loop: focusX, focusY and
smallestValue. -/
structure SelState where
  focusX : ℤ
  focusY : ℤ
  smallestValue : ℤ
  deriving DecidableEq

/-- Initial findings in loop: smallestValue starts at MAX_CALIBRATION and
-255 codes for no focus determined. -/
def selInit : SelState := ⟨-255, -255, MAX_CALIBRATION⟩

/-- One iteration of the interior scan in loop; the pair p carries the
coordinates as (y, x) and thisZone is y times imageWidth plus x. -/
def selStep (w : ℕ) (d : ℤ → ℤ) (s : SelState) (p : ℕ × ℕ) : SelState :=
  if 0 < d ((p.1 * w + p.2 : ℕ) : ℤ) ∧
      d ((p.1 * w + p.2 : ℕ) : ℤ) < s.smallestValue ∧
      validate (scoreZone w d (p.1 * w + p.2)) = true then
    ⟨(p.2 : ℤ), (p.1 : ℤ), d ((p.1 * w + p.2 : ℕ) : ℤ)⟩
  else s

/-- Interior scan order of loop: y from 1 to w - 2 in the outer loop, x
from 1 to w - 2 in the inner loop. -/
def interiorPairs (w : ℕ) : List (ℕ × ℕ) :=
  (List.range (w - 2)).flatMap
    (fun j => (List.range (w - 2)).map (fun i => (j + 1, i + 1)))

/-- Focus selection of loop: fold the per-cell test over the interior
cells in raster scan order. -/
def selectFocus (w : ℕ) (d : ℤ → ℤ) : SelState :=
  (interiorPairs w).foldl (selStep w d) selInit

/-- Adjusted value of a grid at the scan pair p carrying (y, x). -/
def dVal (w : ℕ) (d : ℤ → ℤ) (p : ℕ × ℕ) : ℤ := d ((p.1 * w + p.2 : ℕ) : ℤ)

/-- Update condition of selStep without the running-minimum threshold:
positive adjusted value and a validated neighborhood score. -/
def CandV (w : ℕ) (d : ℤ → ℤ) (p : ℕ × ℕ) : Prop :=
  0 < dVal w d p ∧ validate (scoreZone w d (p.1 * w + p.2)) = true

/-- Candidate cell of the Focus Selector: interior coordinates, positive
adjusted value and a neighborhood score of at least VALID_SCORE_MINIMUM. -/
def Candidate (w : ℕ) (d : ℤ → ℤ) (x y : ℕ) : Prop :=
  1 ≤ x ∧ x ≤ w - 2 ∧ 1 ≤ y ∧ y ≤ w - 2 ∧
    0 < d ((y * w + x : ℕ) : ℤ) ∧ validate (scoreZone w d (y * w + x)) = true

/-- Raster scan strict order on (y, x) pairs: increasing y, then
increasing x. -/
def rasterLT (p q : ℕ × ℕ) : Prop := p.1 < q.1 ∨ (p.1 = q.1 ∧ p.2 < q.2)

/-- Arduino map function on long integers. -/
def arduinoMap (x inMin inMax outMin outMax : ℤ) : ℤ :=
  (x - inMin) * (outMax - outMin) / (inMax - inMin) + outMin

/-- Actuation command issued by one pass of loop: the eyelid open
percentage handed to moveEyeLids and the x, y arguments handed to
moveEyes, all in 0 to 100 space. -/
structure EyeCommand where
  lidOpenPct : ℤ
  eyeX : ℤ
  eyeY : ℤ
  deriving DecidableEq

/-- Eye-pointing branch at the end of loop: with a focus, open the lids
and aim at the mapped focus coordinates; otherwise close the lids and
center the eyes. -/
def eyeControl (s : SelState) : EyeCommand :=
  if 0 < s.focusX ∧ 0 < s.focusY then
    ⟨100, arduinoMap s.focusX 1 6 0 100, arduinoMap s.focusY 1 6 100 0⟩
  else
    ⟨0, 50, 50⟩

/-- Modelled from the spec: the servo travel constants of the header
eyeservosettings.h, which is not in the repository.  The spec states the
mapping from normalized position to servo travel is configuration data
(per-channel travel bounds), not computed. -/
structure ServoConfig where
  xPosMid : ℤ
  xPosLeftOffset : ℤ
  xPosRightOffset : ℤ
  yPosMid : ℤ
  yPosDownOffset : ℤ
  yPosUpOffset : ℤ

/-- moveEyes from the source: map the normalized x and y directly onto the
servo travel and command the servos.  The function holds no position
state; the integer map result is stored in a double in the source, which
is exact at these magnitudes. -/
def moveEyes (cfg : ServoConfig) (x y : ℤ) : ℤ × ℤ :=
  (arduinoMap x 0 100 (cfg.xPosMid + cfg.xPosLeftOffset)
     (cfg.xPosMid + cfg.xPosRightOffset),
   arduinoMap y 0 100 (cfg.yPosMid + cfg.yPosDownOffset)
     (cfg.yPosMid + cfg.yPosUpOffset))

/-- Grid with a 3 by 3 plateau of adjusted value 2000 centered at cell
(4, 4), background everywhere else. -/
def gPlateau : ℤ → ℤ := fun i =>
  if 3 ≤ i / 8 ∧ i / 8 ≤ 5 ∧ 3 ≤ i % 8 ∧ i % 8 ≤ 5 then 2000 else -3

/-- Grid with a 3 by 3 block of valid distances centered at cell (4, 4)
whose center reads 300 and whose ring reads 400, background elsewhere. -/
def gNear : ℤ → ℤ := fun i =>
  if 3 ≤ i / 8 ∧ i / 8 ≤ 5 ∧ 3 ≤ i % 8 ∧ i % 8 ≤ 5 then
    (if i = 4 * 8 + 4 then 300 else 400)
  else -3

/-- Grid with a 3 by 3 block of valid distances centered at cell (2, 2)
whose center reads 300 and whose ring reads 400, background elsewhere. -/
def gEye : ℤ → ℤ := fun i =>
  if 1 ≤ i / 8 ∧ i / 8 ≤ 3 ∧ 1 ≤ i % 8 ∧ i % 8 ≤ 3 then
    (if i = 2 * 8 + 2 then 300 else 400)
  else -3

/-- Grid that is background everywhere. -/
def gIdle : ℤ → ℤ := fun _ => -3

/-- Grid that is a valid distance of 1000 mm everywhere. -/
def gAllPos : ℤ → ℤ := fun _ => 1000

instance (s : ℕ) : Decidable (StatusOK s) := by
  unfold StatusOK; infer_instance

instance (s : ℕ) : Decidable (IsInvalidStatus s) := by
  unfold IsInvalidStatus; infer_instance

instance (s d : ℕ) : Decidable (IsOutOfRange s d) := by
  unfold IsOutOfRange; infer_instance

instance (s d : ℕ) (c : ℤ) : Decidable (IsBackground s d c) := by
  unfold IsBackground; infer_instance

instance (s d : ℕ) (c : ℤ) : Decidable (IsValidDistance s d c) := by
  unfold IsValidDistance; infer_instance

instance (w : ℕ) (d : ℤ → ℤ) (x y : ℕ) : Decidable (Candidate w d x y) := by
  unfold Candidate; infer_instance

instance (w : ℕ) (d : ℤ → ℤ) (p : ℕ × ℕ) : Decidable (CandV w d p) := by
  unfold CandV; infer_instance

/-- Membership in the interior scan list characterizes the interior
coordinate bounds; the pair carries (y, x). -/
lemma mem_interiorPairs {w : ℕ} {p : ℕ × ℕ} :
    p ∈ interiorPairs w ↔ 1 ≤ p.1 ∧ p.1 ≤ w - 2 ∧ 1 ≤ p.2 ∧ p.2 ≤ w - 2 := by
  obtain ⟨y, x⟩ := p
  simp only [interiorPairs, List.mem_flatMap, List.mem_map, List.mem_range,
    Prod.mk.injEq]
  constructor
  · rintro ⟨j, hj, i, hi, hy, hx⟩
    omega
  · rintro ⟨h1, h2, h3, h4⟩
    exact ⟨y - 1, by omega, x - 1, by omega, by omega, by omega⟩

/-- Blocks of constant y, listed for increasing y and increasing x inside
a block, are pairwise ordered by the raster order. -/
lemma pairwise_raster_blocks (cols : ℕ) :
    ∀ rows : List ℕ, rows.Pairwise (· < ·) →
      (rows.flatMap (fun j => (List.range cols).map
        (fun i => ((j + 1, i + 1) : ℕ × ℕ)))).Pairwise rasterLT := by
  intro rows
  induction rows with
  | nil => intro _; simp
  | cons j rest ih =>
    intro hpw
    rw [List.flatMap_cons, List.pairwise_append]
    rcases List.pairwise_cons.mp hpw with ⟨hhead, htail⟩
    refine ⟨?_, ih htail, ?_⟩
    · rw [List.pairwise_map]
      exact (List.pairwise_lt_range cols).imp
        (fun h => Or.inr ⟨rfl, by omega⟩)
    · intro a ha b hb
      rcases List.mem_map.mp ha with ⟨i, _, hai⟩
      rcases List.mem_flatMap.mp hb with ⟨j2, hj2, hb2⟩
      rcases List.mem_map.mp hb2 with ⟨i2, _, hbi⟩
      subst hai; subst hbi
      exact Or.inl (by have := hhead j2 hj2; omega)

/-- Raster sortedness of the interior scan list. -/
lemma pairwise_interiorPairs (w : ℕ) :
    (interiorPairs w).Pairwise rasterLT :=
  pairwise_raster_blocks (w - 2) (List.range (w - 2)) (List.pairwise_lt_range _)

/-- Characterization of the interior scan fold: either no cell fires and
the state is unchanged, with every scanned candidate at or above the held
smallest value, or the scan splits at the last firing cell, which is a
candidate strictly below the incoming smallest value, strictly below every
earlier scanned candidate, and at or below every later scanned
candidate. -/
lemma foldl_selStep_char (w : ℕ) (d : ℤ → ℤ) :
    ∀ (L : List (ℕ × ℕ)) (s : SelState),
      (L.foldl (selStep w d) s = s ∧
        ∀ p ∈ L, CandV w d p → s.smallestValue ≤ dVal w d p) ∨
      (∃ L₁ p L₂, L = L₁ ++ p :: L₂ ∧ CandV w d p ∧
        dVal w d p < s.smallestValue ∧
        L.foldl (selStep w d) s = ⟨(p.2 : ℤ), (p.1 : ℤ), dVal w d p⟩ ∧
        (∀ q ∈ L₁, CandV w d q → dVal w d p < dVal w d q) ∧
        (∀ q ∈ L₂, CandV w d q → dVal w d p ≤ dVal w d q)) := by
  intro L
  induction L with
  | nil => intro s; left; exact ⟨rfl, by simp⟩
  | cons a L ih =>
    intro s
    by_cases hfire : 0 < dVal w d a ∧ dVal w d a < s.smallestValue ∧
        validate (scoreZone w d (a.1 * w + a.2)) = true
    · have hstep : (a :: L).foldl (selStep w d) s
          = L.foldl (selStep w d) ⟨(a.2 : ℤ), (a.1 : ℤ), dVal w d a⟩ := by
        rw [List.foldl_cons]
        congr 1
        simp only [dVal] at hfire
        simp only [selStep, if_pos hfire]
        rfl
      rcases ih ⟨(a.2 : ℤ), (a.1 : ℤ), dVal w d a⟩ with ⟨heq, hmin⟩ |
          ⟨L₁, p, L₂, hL, hcv, hlt, heq, h₁, h₂⟩
      · right
        refine ⟨[], a, L, rfl, ⟨hfire.1, hfire.2.2⟩, hfire.2.1, ?_, ?_, ?_⟩
        · rw [hstep, heq]
        · intro q hq; cases hq
        · exact hmin
      · right
        refine ⟨a :: L₁, p, L₂, by rw [List.cons_append, hL], hcv,
          lt_trans hlt hfire.2.1, by rw [hstep, heq], ?_, h₂⟩
        intro q hq hcvq
        rcases List.mem_cons.mp hq with hqa | hq1
        · subst hqa; exact hlt
        · exact h₁ q hq1 hcvq
    · have hkey : CandV w d a → s.smallestValue ≤ dVal w d a := by
        intro hc
        rcases lt_or_ge (dVal w d a) s.smallestValue with hlt | hge
        · exact absurd ⟨hc.1, hlt, hc.2⟩ hfire
        · exact hge
      have hstep : (a :: L).foldl (selStep w d) s = L.foldl (selStep w d) s := by
        rw [List.foldl_cons]
        congr 1
        simp only [dVal] at hfire
        simp only [selStep, if_neg hfire]
      rcases ih s with ⟨heq, hmin⟩ | ⟨L₁, p, L₂, hL, hcv, hlt, heq, h₁, h₂⟩
      · left
        refine ⟨by rw [hstep, heq], ?_⟩
        intro q hq hcvq
        rcases List.mem_cons.mp hq with hqa | hq1
        · subst hqa; exact hkey hcvq
        · exact hmin q hq1 hcvq
      · right
        refine ⟨a :: L₁, p, L₂, by rw [List.cons_append, hL], hcv, hlt,
          by rw [hstep, heq], ?_, h₂⟩
        intro q hq hcvq
        rcases List.mem_cons.mp hq with hqa | hq1
        · subst hqa; exact lt_of_lt_of_le hlt (hkey hcvq)
        · exact h₁ q hq1 hcvq

/-- Manual absolute value of the source equals the absolute value. -/
lemma manualAbs_eq (t : ℤ) : (if t < 0 then -t else t) = |t| := by
  rcases lt_or_ge t 0 with h | h
  · rw [if_pos h, abs_of_neg h]
  · rw [if_neg (not_lt.mpr h), abs_of_nonneg h]

/-- Cast to int16_t is the identity on distances within range. -/
lemma toInt16_eq_of_le {n : ℕ} (h : n ≤ 2000) : toInt16 n = (n : ℤ) := by
  unfold toInt16
  rw [Nat.mod_eq_of_lt (by omega)]
  rw [if_pos (by omega)]
  omega

/-- Status conditions of the source and StatusOK are complementary. -/
lemma statusCond_iff {s : ℕ} : (s ≠ 5 ∧ s ≠ 9 ∧ s ≠ 6) ↔ ¬ StatusOK s := by
  unfold StatusOK; tauto

/-- adjustCell on a rejected status. -/
lemma adjustCell_invalid {s : ℕ} (di : ℕ) (c : ℤ) (h : ¬ StatusOK s) :
    adjustCell s di c = -1 := by
  unfold adjustCell
  rw [if_pos (statusCond_iff.mpr h)]

/-- adjustCell on accepted status and out-of-range data. -/
lemma adjustCell_oor {s di : ℕ} (c : ℤ) (hs : StatusOK s)
    (h : di = 0 ∨ (di : ℤ) > MAX_CALIBRATION) :
    adjustCell s di c = -2 := by
  unfold adjustCell
  rw [if_neg (fun hc => statusCond_iff.mp hc hs), if_pos h]

/-- adjustCell on in-range background data. -/
lemma adjustCell_bg {s di : ℕ} {c : ℤ} (hs : StatusOK s)
    (h : ¬ (di = 0 ∨ (di : ℤ) > MAX_CALIBRATION))
    (hn : |(di : ℤ) - c| ≤ NOISE_RANGE) :
    adjustCell s di c = -3 := by
  unfold adjustCell
  rw [if_neg (fun hc => statusCond_iff.mp hc hs), if_neg h,
    if_pos (by rw [manualAbs_eq]; exact hn)]

/-- adjustCell on in-range foreground data is the measured distance. -/
lemma adjustCell_valid {s di : ℕ} {c : ℤ} (hs : StatusOK s)
    (h : ¬ (di = 0 ∨ (di : ℤ) > MAX_CALIBRATION))
    (hn : NOISE_RANGE < |(di : ℤ) - c|) :
    adjustCell s di c = (di : ℤ) := by
  unfold adjustCell
  rw [if_neg (fun hc => statusCond_iff.mp hc hs), if_neg h,
    if_neg (by rw [manualAbs_eq]; omega)]
  refine toInt16_eq_of_le ?_
  rw [not_or] at h
  have h2 := h.2
  unfold MAX_CALIBRATION at h2
  omega

/-- Value bound of adjustCell: nothing above MAX_CALIBRATION is ever
produced. -/
lemma adjustCell_le_max (s di : ℕ) (c : ℤ) :
    adjustCell s di c ≤ MAX_CALIBRATION := by
  by_cases hs : StatusOK s
  · by_cases hr : di = 0 ∨ (di : ℤ) > MAX_CALIBRATION
    · rw [adjustCell_oor c hs hr]; unfold MAX_CALIBRATION; omega
    · by_cases hn : |(di : ℤ) - c| ≤ NOISE_RANGE
      · rw [adjustCell_bg hs hr hn]; unfold MAX_CALIBRATION; omega
      · rw [adjustCell_valid hs hr (by omega)]
        rw [not_or] at hr
        omega
  · rw [adjustCell_invalid di c hs]; unfold MAX_CALIBRATION; omega

/-- Counter of the avgdistZone accumulation never decreases. -/
lemma zoneScan_snd_mono (d : ℤ → ℤ) :
    ∀ (L : List ℤ) (acc : ℤ × ℤ),
      acc.2 ≤ (L.foldl
        (fun acc loc => if 0 < d loc then (acc.1 + d loc, acc.2 + 1) else acc) acc).2 := by
  intro L
  induction L with
  | nil => intro acc; exact le_refl _
  | cons a L ih =>
    intro acc
    rw [List.foldl_cons]
    by_cases h : 0 < d a
    · rw [if_pos h]
      have h2 := ih (acc.1 + d a, acc.2 + 1)
      simp only [Prod.snd] at h2 ⊢
      omega
    · rw [if_neg h]
      exact ih acc

/-- Counter of the avgdistZone accumulation passes one for every scanned
cell with a positive value. -/
lemma zoneScan_snd_of_mem (d : ℤ → ℤ) :
    ∀ (L : List ℤ) (acc : ℤ × ℤ) (loc : ℤ), loc ∈ L → 0 < d loc →
      acc.2 + 1 ≤ (L.foldl
        (fun acc loc => if 0 < d loc then (acc.1 + d loc, acc.2 + 1) else acc) acc).2 := by
  intro L
  induction L with
  | nil => intro acc loc h; cases h
  | cons a L ih =>
    intro acc loc hmem hpos
    rw [List.foldl_cons]
    rcases List.mem_cons.mp hmem with heq | hmem2
    · subst heq
      rw [if_pos hpos]
      have h2 := zoneScan_snd_mono d L (acc.1 + d loc, acc.2 + 1)
      simp only [Prod.snd] at h2
      omega
    · by_cases h : 0 < d a
      · rw [if_pos h]
        have h2 := ih (acc.1 + d a, acc.2 + 1) loc hmem2 hpos
        simp only [Prod.snd] at h2
        omega
      · rw [if_neg h]
        exact ih acc loc hmem2 hpos

/-- Center cell of the 3 by 3 scan is among the scanned indices. -/
lemma center_mem_nbhd (w : ℕ) (locX locY : ℕ) :
    ((locY : ℤ) * (w : ℤ) + (locX : ℤ)) ∈ nbhd w locX locY := by
  unfold nbhd offsets
  refine List.mem_flatMap.mpr ⟨0, by simp, ?_⟩
  refine List.mem_map.mpr ⟨0, by simp, ?_⟩
  ring

/-- Row and column decomposition of a cell index. -/
lemma loc_decompose (w location : ℕ) :
    ((location / w : ℕ) : ℤ) * (w : ℤ) + ((location % w : ℕ) : ℤ)
      = (location : ℤ) := by
  rw [← Nat.cast_mul, ← Nat.cast_add]
  congr 1
  conv_rhs => rw [← Nat.div_add_mod location w]
  ring

/-- Claim C2 (confirmed): processMeasuredData classifies every cell by the
ordered rules: rejected status gives -1, zero or over-range distance gives
-2, a delta of at most 50 mm from calibration gives -3, and otherwise the
cell holds the positive measured distance.  Exactly one of the four
classes holds per cell, all sentinels are negative and all valid distances
are positive. -/
theorem claim_C2_classification (status dist : ℤ → ℕ) (calib : ℤ → ℤ) (i : ℤ) :
    (processMeasuredData status dist calib i = -1 ↔ IsInvalidStatus (status i)) ∧
    (processMeasuredData status dist calib i = -2 ↔
      IsOutOfRange (status i) (dist i)) ∧
    (processMeasuredData status dist calib i = -3 ↔
      IsBackground (status i) (dist i) (calib i)) ∧
    (0 < processMeasuredData status dist calib i ↔
      IsValidDistance (status i) (dist i) (calib i)) ∧
    (IsValidDistance (status i) (dist i) (calib i) →
      processMeasuredData status dist calib i = ((dist i : ℕ) : ℤ)) ∧
    (processMeasuredData status dist calib i = -1 ∨
      processMeasuredData status dist calib i = -2 ∨
      processMeasuredData status dist calib i = -3 ∨
      0 < processMeasuredData status dist calib i) := by
  simp only [processMeasuredData]
  set s := status i with hsdef
  set di := dist i with hddef
  set c := calib i with hcdef
  by_cases hs : StatusOK s
  · by_cases hr : di = 0 ∨ (di : ℤ) > MAX_CALIBRATION
    · rw [adjustCell_oor c hs hr]
      exact ⟨iff_of_false (by norm_num) (fun h => h hs),
        iff_of_true rfl ⟨hs, hr⟩,
        iff_of_false (by norm_num) (fun h => h.2.1 hr),
        iff_of_false (by norm_num) (fun h => h.2.1 hr),
        fun h => absurd hr h.2.1,
        Or.inr (Or.inl rfl)⟩
    · by_cases hn : |(di : ℤ) - c| ≤ NOISE_RANGE
      · rw [adjustCell_bg hs hr hn]
        exact ⟨iff_of_false (by norm_num) (fun h => h hs),
          iff_of_false (by norm_num) (fun h => hr h.2),
          iff_of_true rfl ⟨hs, hr, hn⟩,
          iff_of_false (by norm_num) (fun h => absurd h.2.2 (not_lt.mpr hn)),
          fun h => absurd h.2.2 (not_lt.mpr hn),
          Or.inr (Or.inr (Or.inl rfl))⟩
      · have hv : NOISE_RANGE < |(di : ℤ) - c| := not_le.mp hn
        rw [adjustCell_valid hs hr hv]
        have hpos : 0 < (di : ℤ) := by
          have := (not_or.mp hr).1
          omega
        exact ⟨iff_of_false (by omega) (fun h => h hs),
          iff_of_false (by omega) (fun h => hr h.2),
          iff_of_false (by omega) (fun h => absurd h.2.2 (not_le.mpr hv)),
          iff_of_true hpos ⟨hs, hr, hv⟩,
          fun _ => rfl,
          Or.inr (Or.inr (Or.inr hpos))⟩
  · rw [adjustCell_invalid di c hs]
    exact ⟨iff_of_true rfl hs,
      iff_of_false (by norm_num) (fun h => hs h.1),
      iff_of_false (by norm_num) (fun h => hs h.1),
      iff_of_false (by norm_num) (fun h => hs h.1),
      fun h => absurd h.1 hs,
      Or.inl rfl⟩

/-- Witness for claim C2 at concrete cells exercising all four classes. -/
theorem claim_C2_classification_witness :
    processMeasuredData (fun _ => 2) (fun _ => 700) (fun _ => 2000) 0 = -1 ∧
    processMeasuredData (fun _ => 5) (fun _ => 0) (fun _ => 2000) 0 = -2 ∧
    processMeasuredData (fun _ => 5) (fun _ => 1990) (fun _ => 2000) 0 = -3 ∧
    processMeasuredData (fun _ => 5) (fun _ => 700) (fun _ => 2000) 0 = 700 :=
  ⟨(claim_C2_classification (fun _ => 2) (fun _ => 700) (fun _ => 2000) 0).1.mpr
      (by decide),
   (claim_C2_classification (fun _ => 5) (fun _ => 0) (fun _ => 2000) 0).2.1.mpr
      (by decide),
   (claim_C2_classification (fun _ => 5) (fun _ => 1990) (fun _ => 2000) 0).2.2.1.mpr
      (by decide),
   (claim_C2_classification (fun _ => 5) (fun _ => 700) (fun _ => 2000) 0).2.2.2.2.1
      (by decide)⟩

/-- Claim C3 (confirmed): with passing status and range checks, a delta of
exactly 50 mm from calibration is background, a delta of 51 mm is a valid
positive distance, and a distance exactly equal to the calibration is
always background. -/
theorem claim_C3_inclusive_noise_threshold (s di : ℕ) (c : ℤ)
    (hs : StatusOK s) (h0 : di ≠ 0) (hr : (di : ℤ) ≤ MAX_CALIBRATION) :
    (|(di : ℤ) - c| = 50 → adjustCell s di c = -3) ∧
    (|(di : ℤ) - c| = 51 → adjustCell s di c = (di : ℤ) ∧ 0 < adjustCell s di c) ∧
    ((di : ℤ) = c → adjustCell s di c = -3) := by
  have hrr : ¬ (di = 0 ∨ (di : ℤ) > MAX_CALIBRATION) := by
    rw [not_or]
    exact ⟨h0, not_lt.mpr hr⟩
  refine ⟨?_, ?_, ?_⟩
  · intro h
    exact adjustCell_bg hs hrr (by rw [h]; unfold NOISE_RANGE; omega)
  · intro h
    have hv := adjustCell_valid hs hrr (by rw [h]; unfold NOISE_RANGE; omega)
    refine ⟨hv, ?_⟩
    rw [hv]
    omega
  · intro h
    exact adjustCell_bg hs hrr
      (by rw [h, sub_self, abs_zero]; unfold NOISE_RANGE; omega)

/-- Witness for claim C3 at the 50 and 51 mm boundary and at an exact
calibration match. -/
theorem claim_C3_inclusive_noise_threshold_witness :
    adjustCell 5 1000 950 = -3 ∧ adjustCell 5 1001 950 = 1001 ∧
      adjustCell 5 950 950 = -3 :=
  ⟨(claim_C3_inclusive_noise_threshold 5 1000 950 (Or.inl rfl) (by decide)
      (by decide)).1 (by decide),
   ((claim_C3_inclusive_noise_threshold 5 1001 950 (Or.inl rfl) (by decide)
      (by decide)).2.1 (by decide)).1,
   (claim_C3_inclusive_noise_threshold 5 950 950 (Or.inl rfl) (by decide)
      (by decide)).2.2 (by decide)⟩

/-- Claim C8 (confirmed): every captured calibration cell is a positive
integer of at most MAX_CALIBRATION, and a raw reading of zero or above
MAX_CALIBRATION is clamped to MAX_CALIBRATION.  Immutability after setup
is reflected by the embedding, which passes the calibration as a read-only
function. -/
theorem claim_C8_calibration_clamped (raw : ℕ) :
    1 ≤ calibrateCell raw ∧ calibrateCell raw ≤ MAX_CALIBRATION ∧
    ((raw = 0 ∨ (raw : ℤ) > MAX_CALIBRATION) →
      calibrateCell raw = MAX_CALIBRATION) := by
  by_cases h : raw = 0 ∨ (raw : ℤ) > MAX_CALIBRATION
  · unfold calibrateCell
    rw [if_pos h]
    exact ⟨by unfold MAX_CALIBRATION; omega, le_refl _, fun _ => rfl⟩
  · unfold calibrateCell
    rw [if_neg h]
    rw [not_or] at h
    have h1 := h.1
    have h2 := h.2
    unfold MAX_CALIBRATION at h2 ⊢
    exact ⟨by omega, by omega, fun hc => absurd hc (not_or.mpr ⟨h1, by omega⟩)⟩

/-- Witness for claim C8 at a zero and at an over-range raw reading. -/
theorem claim_C8_calibration_clamped_witness :
    1 ≤ calibrateCell 0 ∧ calibrateCell 0 = MAX_CALIBRATION ∧
      calibrateCell 2500 = MAX_CALIBRATION :=
  ⟨(claim_C8_calibration_clamped 0).1,
   (claim_C8_calibration_clamped 0).2.2 (Or.inl rfl),
   (claim_C8_calibration_clamped 2500).2.2 (Or.inr (by decide))⟩

/-- Candidate coordinates correspond exactly to scan pairs with a firing
condition. -/
lemma candidate_iff {w : ℕ} {d : ℤ → ℤ} {x y : ℕ} :
    Candidate w d x y ↔ (y, x) ∈ interiorPairs w ∧ CandV w d (y, x) := by
  rw [mem_interiorPairs]
  unfold Candidate CandV dVal
  dsimp only
  tauto

/-- Claim C1 (as amended): provided some candidate has adjusted value
strictly below MAX_CALIBRATION, the Focus Selector returns the candidate
with the globally smallest adjusted value (nearest object wins), ties
broken by raster scan order: the first candidate encountered in
increasing y, then increasing x, wins.  A candidate whose value is not
below MAX_CALIBRATION can never be selected, because smallestValue starts
at MAX_CALIBRATION and only strictly smaller values replace it. -/
theorem claim_C1_nearest_candidate_wins (w : ℕ) (d : ℤ → ℤ)
    (h : ∃ x y : ℕ, Candidate w d x y ∧
      d ((y * w + x : ℕ) : ℤ) < MAX_CALIBRATION) :
    ∃ x y : ℕ, Candidate w d x y ∧
      selectFocus w d = ⟨(x : ℤ), (y : ℤ), d ((y * w + x : ℕ) : ℤ)⟩ ∧
      (∀ x2 y2 : ℕ, Candidate w d x2 y2 →
        d ((y * w + x : ℕ) : ℤ) ≤ d ((y2 * w + x2 : ℕ) : ℤ)) ∧
      (∀ x2 y2 : ℕ, Candidate w d x2 y2 →
        d ((y2 * w + x2 : ℕ) : ℤ) = d ((y * w + x : ℕ) : ℤ) →
        y < y2 ∨ (y = y2 ∧ x ≤ x2)) := by
  rcases h with ⟨x0, y0, hc0, hlt0⟩
  rcases foldl_selStep_char w d (interiorPairs w) selInit with ⟨heq, hmin⟩ |
      ⟨L₁, p, L₂, hL, hcv, hlt, heq, h₁, h₂⟩
  · exfalso
    have hm := candidate_iff.mp hc0
    have hge : MAX_CALIBRATION ≤ d ((y0 * w + x0 : ℕ) : ℤ) :=
      hmin (y0, x0) hm.1 hm.2
    omega
  · have hp : p ∈ interiorPairs w := by
      rw [hL]
      exact List.mem_append_right _ (List.mem_cons_self _ _)
    refine ⟨p.2, p.1, candidate_iff.mpr ⟨hp, hcv⟩, heq, ?_, ?_⟩
    · intro x2 y2 hc2
      have hmem := (candidate_iff.mp hc2).1
      have hcv2 := (candidate_iff.mp hc2).2
      rw [hL] at hmem
      rcases List.mem_append.mp hmem with hq1 | hq2
      · exact le_of_lt (h₁ (y2, x2) hq1 hcv2)
      · rcases List.mem_cons.mp hq2 with hq | hq2b
        · cases hq
          exact le_refl _
        · exact h₂ (y2, x2) hq2b hcv2
    · intro x2 y2 hc2 hdeq
      have hmem := (candidate_iff.mp hc2).1
      have hcv2 := (candidate_iff.mp hc2).2
      rw [hL] at hmem
      rcases List.mem_append.mp hmem with hq1 | hq2
      · have := h₁ (y2, x2) hq1 hcv2
        have hd2 : dVal w d (y2, x2) = dVal w d p := hdeq
        omega
      · rcases List.mem_cons.mp hq2 with hq | hq2b
        · cases hq
          exact Or.inr ⟨rfl, le_refl _⟩
        · have hpw := pairwise_interiorPairs w
          rw [hL] at hpw
          have hps := (List.pairwise_append.mp hpw).2.1
          have hrel := (List.pairwise_cons.mp hps).1 (y2, x2) hq2b
          unfold rasterLT at hrel
          dsimp only at hrel
          rcases hrel with hlt2 | ⟨heq2, hlt2⟩
          · exact Or.inl hlt2
          · exact Or.inr ⟨heq2, le_of_lt hlt2⟩

/-- Claim C1 counterexample: on gPlateau the cell (4, 4) is a candidate,
every candidate carries the globally smallest adjusted value 2000, yet the
selector reports no focus at all, so the claim that the Focus Selector
returns the candidate with the globally smallest adjusted value fails as
stated. -/
theorem claim_C1_counterexample :
    Candidate 8 gPlateau 4 4 ∧ gPlateau ((4 * 8 + 4 : ℕ) : ℤ) = 2000 ∧
      selectFocus 8 gPlateau = selInit ∧
      (selectFocus 8 gPlateau).focusX = -255 := by
  decide

/-- Witness for claim C1 on gNear, where the nearest candidate (4, 4) with
value 300 is selected. -/
theorem claim_C1_nearest_candidate_wins_witness :
    (∃ x y : ℕ, Candidate 8 gNear x y ∧
      gNear ((y * 8 + x : ℕ) : ℤ) < MAX_CALIBRATION) ∧
    (∃ x y : ℕ, Candidate 8 gNear x y ∧
      selectFocus 8 gNear = ⟨(x : ℤ), (y : ℤ), gNear ((y * 8 + x : ℕ) : ℤ)⟩ ∧
      (∀ x2 y2 : ℕ, Candidate 8 gNear x2 y2 →
        gNear ((y * 8 + x : ℕ) : ℤ) ≤ gNear ((y2 * 8 + x2 : ℕ) : ℤ)) ∧
      (∀ x2 y2 : ℕ, Candidate 8 gNear x2 y2 →
        gNear ((y2 * 8 + x2 : ℕ) : ℤ) = gNear ((y * 8 + x : ℕ) : ℤ) →
        y < y2 ∨ (y = y2 ∧ x ≤ x2))) :=
  have h : ∃ x y : ℕ, Candidate 8 gNear x y ∧
      gNear ((y * 8 + x : ℕ) : ℤ) < MAX_CALIBRATION :=
    ⟨4, 4, by decide, by decide⟩
  ⟨h, claim_C1_nearest_candidate_wins 8 gNear h⟩

/-- Claim C4 (confirmed): the Focus Selector never reports a focus with x
or y equal to 0 or to w - 1: the coordinates are either the no-focus code
-255 or interior coordinates between 1 and w - 2. -/
theorem claim_C4_edge_exclusion (w : ℕ) (d : ℤ → ℤ) :
    (selectFocus w d).focusX ≠ 0 ∧ (selectFocus w d).focusY ≠ 0 ∧
    (selectFocus w d).focusX ≠ (w : ℤ) - 1 ∧
    (selectFocus w d).focusY ≠ (w : ℤ) - 1 := by
  rcases foldl_selStep_char w d (interiorPairs w) selInit with ⟨heq, _⟩ |
      ⟨L₁, p, L₂, hL, _, _, heq, _, _⟩
  · have hsel : selectFocus w d = selInit := heq
    rw [hsel]
    refine ⟨by decide, by decide, ?_, ?_⟩
    · show (-255 : ℤ) ≠ (w : ℤ) - 1
      omega
    · show (-255 : ℤ) ≠ (w : ℤ) - 1
      omega
  · have hsel : selectFocus w d = ⟨(p.2 : ℤ), (p.1 : ℤ), dVal w d p⟩ := heq
    have hp : p ∈ interiorPairs w := by
      rw [hL]
      exact List.mem_append_right _ (List.mem_cons_self _ _)
    obtain ⟨hb1, hb2, hb3, hb4⟩ := mem_interiorPairs.mp hp
    rw [hsel]
    refine ⟨?_, ?_, ?_, ?_⟩
    · show (p.2 : ℤ) ≠ 0
      omega
    · show (p.1 : ℤ) ≠ 0
      omega
    · show (p.2 : ℤ) ≠ (w : ℤ) - 1
      omega
    · show (p.1 : ℤ) ≠ (w : ℤ) - 1
      omega

/-- Claim C5 (confirmed): when no cell is a candidate, the POI is none
(focus coordinates stay -255 and the range stays at the MAX_CALIBRATION
maximum) and on the same tick the actuation branch closes the eyelids
(moveEyeLids 0) and centers the eyes (moveEyes 50 50). -/
theorem claim_C5_no_candidate_idle (w : ℕ) (d : ℤ → ℤ)
    (h : ∀ x y : ℕ, ¬ Candidate w d x y) :
    selectFocus w d = ⟨-255, -255, MAX_CALIBRATION⟩ ∧
    eyeControl (selectFocus w d) = ⟨0, 50, 50⟩ := by
  have hsel : selectFocus w d = selInit := by
    rcases foldl_selStep_char w d (interiorPairs w) selInit with ⟨heq, _⟩ |
        ⟨L₁, p, L₂, hL, hcv, _, _, _, _⟩
    · exact heq
    · exfalso
      have hp : p ∈ interiorPairs w := by
        rw [hL]
        exact List.mem_append_right _ (List.mem_cons_self _ _)
      exact h p.2 p.1 (candidate_iff.mpr ⟨hp, hcv⟩)
  exact ⟨hsel, by rw [hsel]; decide⟩

/-- Witness for claim C5 on the all-background grid, where every adjusted
cell is -3. -/
theorem claim_C5_no_candidate_idle_witness :
    selectFocus 8 gIdle = ⟨-255, -255, MAX_CALIBRATION⟩ ∧
    eyeControl (selectFocus 8 gIdle) = ⟨0, 50, 50⟩ :=
  claim_C5_no_candidate_idle 8 gIdle (by
    intro x y hc
    exact absurd hc.2.2.2.2.1 (by norm_num [gIdle]))

/-- Claim C10 (confirmed): a cell whose adjusted value equals
MAX_CALIBRATION can never become the POI.  The focus coordinates are set
(different from -255) exactly when the reported range is strictly below
MAX_CALIBRATION; any selected cell carries an adjusted value strictly
below MAX_CALIBRATION; and the frame processor never produces an adjusted
value above MAX_CALIBRATION. -/
theorem claim_C10_max_never_poi (w : ℕ) (d : ℤ → ℤ) :
    ((selectFocus w d).focusX ≠ -255 ↔
      (selectFocus w d).smallestValue < MAX_CALIBRATION) ∧
    ((selectFocus w d).focusX ≠ -255 →
      ∃ x y : ℕ, Candidate w d x y ∧
        selectFocus w d = ⟨(x : ℤ), (y : ℤ), d ((y * w + x : ℕ) : ℤ)⟩ ∧
        d ((y * w + x : ℕ) : ℤ) < MAX_CALIBRATION) ∧
    (∀ st di : ℕ, ∀ ca : ℤ, adjustCell st di ca ≤ MAX_CALIBRATION) := by
  rcases foldl_selStep_char w d (interiorPairs w) selInit with ⟨heq, _⟩ |
      ⟨L₁, p, L₂, hL, hcv, hlt, heq, _, _⟩
  · have hsel : selectFocus w d = selInit := heq
    rw [hsel]
    exact ⟨iff_of_false (fun hcon => hcon rfl) (by decide),
      fun hcon => absurd rfl hcon,
      fun st di ca => adjustCell_le_max st di ca⟩
  · have hsel : selectFocus w d = ⟨(p.2 : ℤ), (p.1 : ℤ), dVal w d p⟩ := heq
    have hp : p ∈ interiorPairs w := by
      rw [hL]
      exact List.mem_append_right _ (List.mem_cons_self _ _)
    obtain ⟨hb1, hb2, hb3, hb4⟩ := mem_interiorPairs.mp hp
    have hx : (p.2 : ℤ) ≠ -255 := by omega
    rw [hsel]
    exact ⟨iff_of_true hx hlt,
      fun _ => ⟨p.2, p.1, candidate_iff.mpr ⟨hp, hcv⟩, rfl, hlt⟩,
      fun st di ca => adjustCell_le_max st di ca⟩

/-- Witness for claim C10 on gPlateau, where all candidates carry exactly
MAX_CALIBRATION, so no POI is reported, together with the adjusted-value
bound at a concrete cell. -/
theorem claim_C10_max_never_poi_witness :
    (selectFocus 8 gPlateau).focusX = -255 ∧
      adjustCell 5 700 2000 ≤ MAX_CALIBRATION :=
  ⟨by decide, (claim_C10_max_never_poi 8 gPlateau).2.2 5 700 2000⟩

/-- Guard of scoreZone and avgdistZone is false whenever neither
coordinate is 0 or w. -/
lemma edgeGuard_false {w locX locY : ℕ} (hx0 : locX ≠ 0) (hxw : locX ≠ w)
    (hy0 : locY ≠ 0) (hyw : locY ≠ w) :
    edgeGuard w locX locY = false := by
  unfold edgeGuard
  simp only [Bool.or_eq_false_iff, beq_eq_false_iff_ne, ne_eq]
  exact ⟨⟨⟨hx0, hxw⟩, hy0⟩, hyw⟩

/-- Claim C6 (as amended): the edge guards compare against imageWidth
itself, so a coordinate equal to w - 1 never triggers them.  For every
in-grid cell with x = w - 1 or y = w - 1 whose other coordinate is not 0,
the guard is false and scoreZone and avgdistZone compute over the
partially out-of-grid 3 by 3 neighborhood, under-excluding the right and
bottom edges. -/
theorem claim_C6_under_exclusion (w : ℕ) (d : ℤ → ℤ) (location : ℕ)
    (hloc : location < w * w)
    (hedge : location % w = w - 1 ∨ location / w = w - 1)
    (hx0 : location % w ≠ 0) (hy0 : location / w ≠ 0) :
    edgeGuard w (location % w) (location / w) = false ∧
    scoreZone w d location = score9 w d (location % w) (location / w) ∧
    avgdistZone w d location =
      (if 0 < d (location : ℤ) then
        (zoneScan w d (location % w) (location / w)).1 /
          (zoneScan w d (location % w) (location / w)).2
       else d (location : ℤ)) := by
  have hw : 0 < w := by
    cases w with
    | zero => omega
    | succ n => omega
  have hxw : location % w < w := Nat.mod_lt _ hw
  have hyw : location / w < w := (Nat.div_lt_iff_lt_mul hw).mpr hloc
  have hguard : edgeGuard w (location % w) (location / w) = false :=
    edgeGuard_false hx0 (by omega) hy0 (by omega)
  refine ⟨hguard, ?_, ?_⟩
  · unfold scoreZone
    rw [hguard, if_neg Bool.false_ne_true]
  · unfold avgdistZone
    rw [hguard, if_neg Bool.false_ne_true]

/-- Claim C6 counterexample: cell 7 of an 8 by 8 grid has x = 7 = N - 1
and y = 0.  On a grid that is positive everywhere, scoreZone returns 0 and
avgdistZone returns the cell value itself: both functions take their edge
branch at a cell with x = N - 1 because y = 0 triggers the guard, while
the 3 by 3 scan would have returned a score of 9. -/
theorem claim_C6_counterexample :
    (7 : ℕ) % 8 = 7 ∧ (7 : ℕ) / 8 = 0 ∧
      edgeGuard 8 (7 % 8) (7 / 8) = true ∧
      scoreZone 8 gAllPos 7 = 0 ∧ score9 8 gAllPos (7 % 8) (7 / 8) = 9 ∧
      avgdistZone 8 gAllPos 7 = gAllPos 7 := by
  decide

/-- Witness for claim C6 at cell 15 (x = 7, y = 1) of an 8 by 8 grid. -/
theorem claim_C6_under_exclusion_witness :
    edgeGuard 8 (15 % 8) (15 / 8) = false ∧
      scoreZone 8 gAllPos 15 = score9 8 gAllPos (15 % 8) (15 / 8) :=
  ⟨(claim_C6_under_exclusion 8 gAllPos 15 (by decide) (Or.inl (by decide))
      (by decide) (by decide)).1,
   (claim_C6_under_exclusion 8 gAllPos 15 (by decide) (Or.inl (by decide))
      (by decide) (by decide)).2.1⟩

/-- Claim C7 (as amended): when tracking a POI the actuation is a direct
jump, not an easing: the command of a tick is a pure function of the
current focus with no held pan or tilt state, the eyelids are commanded
fully open at once, and the commanded position equals the mapped target
exactly after a single tick, for every servo configuration. -/
theorem claim_C7_direct_jump (s : SelState) (hx : 0 < s.focusX)
    (hy : 0 < s.focusY) :
    eyeControl s = ⟨100, arduinoMap s.focusX 1 6 0 100,
      arduinoMap s.focusY 1 6 100 0⟩ ∧
    ∀ cfg : ServoConfig,
      moveEyes cfg (eyeControl s).eyeX (eyeControl s).eyeY =
        moveEyes cfg (arduinoMap s.focusX 1 6 0 100)
          (arduinoMap s.focusY 1 6 100 0) := by
  have h : eyeControl s = ⟨100, arduinoMap s.focusX 1 6 0 100,
      arduinoMap s.focusY 1 6 100 0⟩ := by
    unfold eyeControl
    rw [if_pos ⟨hx, hy⟩]
  exact ⟨h, fun cfg => by rw [h]⟩

/-- Claim C7 counterexample: on the concrete frame gEye the selector
reports the POI (2, 2) and the very first tick commands the eyes exactly
to the mapped target position (20, 80) with the lids fully open.  The
commanded position does not differ from the target after one tick, and
the code holds no pan or tilt state to ease. -/
theorem claim_C7_counterexample :
    selectFocus 8 gEye = ⟨2, 2, 300⟩ ∧
    eyeControl (selectFocus 8 gEye) =
      ⟨100, arduinoMap (selectFocus 8 gEye).focusX 1 6 0 100,
        arduinoMap (selectFocus 8 gEye).focusY 1 6 100 0⟩ ∧
    eyeControl (selectFocus 8 gEye) = ⟨100, 20, 80⟩ := by
  decide

/-- Witness for claim C7 at the concrete focus state (2, 2, 300). -/
theorem claim_C7_direct_jump_witness :
    eyeControl ⟨2, 2, 300⟩ =
      ⟨100, arduinoMap 2 1 6 0 100, arduinoMap 2 1 6 100 0⟩ :=
  (claim_C7_direct_jump ⟨2, 2, 300⟩ (by decide) (by decide)).1

/-- Claim C9 (confirmed): avgdistZone never divides by zero.  On an
interior cell whose own value is positive, the count of valid neighborhood
cells is at least one because the cell itself is scanned and counted, and
the returned average divides by that count; when the cell value is not
positive the function returns the value without dividing. -/
theorem claim_C9_no_division_by_zero (w : ℕ) (d : ℤ → ℤ) (location : ℕ)
    (hx1 : 1 ≤ location % w) (hx2 : location % w ≤ w - 2)
    (hy1 : 1 ≤ location / w) (hy2 : location / w ≤ w - 2) :
    (0 < d (location : ℤ) →
      1 ≤ (zoneScan w d (location % w) (location / w)).2 ∧
      avgdistZone w d location =
        (zoneScan w d (location % w) (location / w)).1 /
          (zoneScan w d (location % w) (location / w)).2) ∧
    (d (location : ℤ) ≤ 0 → avgdistZone w d location = d (location : ℤ)) := by
  have hguard : edgeGuard w (location % w) (location / w) = false :=
    edgeGuard_false (by omega) (by omega) (by omega) (by omega)
  constructor
  · intro hpos
    constructor
    · have hc := center_mem_nbhd w (location % w) (location / w)
      have hdc : 0 < d (((location / w : ℕ) : ℤ) * (w : ℤ)
          + ((location % w : ℕ) : ℤ)) := by
        rw [loc_decompose]
        exact hpos
      have hcount := zoneScan_snd_of_mem d
        (nbhd w (location % w) (location / w)) (0, 0) _ hc hdc
      unfold zoneScan
      simpa using hcount
    · unfold avgdistZone
      rw [hguard, if_neg Bool.false_ne_true, if_pos hpos]
  · intro hneg
    unfold avgdistZone
    rw [hguard, if_neg Bool.false_ne_true, if_neg (by omega)]

/-- Witness for claim C9 at the interior cell 9 (x = 1, y = 1) of the
all-positive grid. -/
theorem claim_C9_no_division_by_zero_witness :
    1 ≤ (zoneScan 8 gAllPos (9 % 8) (9 / 8)).2 ∧
      avgdistZone 8 gAllPos 9 =
        (zoneScan 8 gAllPos (9 % 8) (9 / 8)).1 /
          (zoneScan 8 gAllPos (9 % 8) (9 / 8)).2 :=
  (claim_C9_no_division_by_zero 8 gAllPos 9 (by decide) (by decide)
      (by decide) (by decide)).1 (by decide)
